import Mathlib

/-!
# Verification of the decklist core engine

A shallow embedding, in Lean 4, of the data-processing core of the
`decklist` terminal utility (Rust), together with proofs about it.

The embedding covers:
* the card record types (`CollectionCard`, `ScryfallCard` with the fields
  the engine reads: name, layout, legalities, prices);
* the decklist parser `read_decklist` (src/collection.rs);
* the difference engine `find_missing_cards` (src/collection.rs);
* the legality aggregator `check_legality` / `convert_legal` / `match_card`
  (src/collection.rs, src/database/scryfall.rs);
* the catalog index builder `read_scryfall_database` (src/database/scryfall.rs);
* the pricing helpers `get_min_price` / `min_price_fmt` (src/database/scryfall.rs);
* the catalog locate/prune helpers `find_scryfall_database` /
  `database_management` and the age check `database_check` (src/startup.rs);
* the missing-computation spawn gate of the orchestrator (src/app.rs).

Machine integers (`u64`) are modelled as `Nat`; the only subtraction the
code performs on them is guarded by a strict comparison, so no wrap-around
can occur on the modelled paths.  Rust `f64` price values are modelled as
exact scaled decimals (`Dec` below): every price the engine reads is parsed
from a short decimal string, and the engine only compares prices and
multiplies one by an integer quantity, operations on which the exact-decimal
model agrees with `f64` for the magnitudes involved.

String primitives (`str::split`, `str::split_whitespace`, `str::trim`,
`str::contains`, `u64::from_str`, ...) are modelled by structurally
recursive functions on `List Char`; UTF-8 byte order coincides with code
point order, so character-wise comparisons model Rust's byte-wise ones.
-/

namespace Decklist

/-! ## String helpers -/

/-- Split a character list on a separator character, keeping empty groups
(model of Rust `str::split(char)`). -/
def splitOnChar (sep : Char) : List Char → List (List Char)
  | [] => [[]]
  | c :: rest =>
    if c = sep then [] :: splitOnChar sep rest
    else
      match splitOnChar sep rest with
      | [] => [[c]]
      | g :: gs => (c :: g) :: gs

/-- Split a character list on the two-character pattern `//`, keeping empty
groups (model of Rust `str::split("//")`, for the dual-face separator). -/
def splitOnDslash : List Char → List (List Char)
  | '/' :: '/' :: rest => [] :: splitOnDslash rest
  | c :: rest =>
    match splitOnDslash rest with
    | [] => [[c]]
    | g :: gs => (c :: g) :: gs
  | [] => [[]]

/-- Split a character list into maximal runs not satisfying `p`, dropping
the separators but keeping empty groups (helper for `splitWhitespace`). -/
def splitOnPred (p : Char → Bool) : List Char → List (List Char)
  | [] => [[]]
  | c :: rest =>
    if p c then [] :: splitOnPred p rest
    else
      match splitOnPred p rest with
      | [] => [[c]]
      | g :: gs => (c :: g) :: gs

/-- Strip whitespace from both ends (model of Rust `str::trim`). -/
def trimChars (cs : List Char) : List Char :=
  ((cs.dropWhile Char.isWhitespace).reverse.dropWhile Char.isWhitespace).reverse

/-- Model of Rust `str::trim` on strings. -/
def trimS (s : String) : String :=
  String.mk (trimChars s.data)

/-- Model of Rust `str::split_whitespace`: split on whitespace, dropping
empty tokens. -/
def splitWhitespace (s : String) : List String :=
  ((splitOnPred Char.isWhitespace s.data).filter (fun w => w ≠ [])).map String.mk

/-- Model of Rust `str::contains(pat)` for a single-character pattern. -/
def strContainsChar (s : String) (pat : Char) : Bool :=
  s.data.contains pat

/-- Model of Rust `str::contains("//")`. -/
def containsDslash (s : String) : Bool :=
  (splitOnDslash s.data).length > 1

/-- Substring containment (model of Rust `str::contains(&str)`, used by the
catalog name matching): some split of `s.data` has `pat.data` as an infix. -/
def strContains (s pat : String) : Bool :=
  decide (pat.data <:+: s.data)

/-- Model of Rust `str::to_lowercase` (character-wise; sufficient for the
ASCII marker `"sideboard"` the parser compares against). -/
def lowerString (s : String) : String :=
  String.mk (s.data.map Char.toLower)

/-- Is `c` an ASCII digit? -/
def isDigitChar (c : Char) : Bool :=
  '0' ≤ c && c ≤ '9'

/-- Numeric value of a list of ASCII digits (most significant first). -/
def digitsVal : List Char → Nat
  | [] => 0
  | c :: cs => (c.toNat - 48) * 10 ^ cs.length + digitsVal cs

/-- Model of Rust `u64::from_str`: an optional `+` sign followed by at least
one ASCII digit, with the value below `2 ^ 64`. -/
def parseU64 (s : String) : Option Nat :=
  let cs := match s.data with
    | '+' :: rest => rest
    | cs => cs
  if cs ≠ [] && cs.all isDigitChar && digitsVal cs < 2 ^ 64 then
    some (digitsVal cs)
  else
    none

/-- Modelled from the spec: the `diacritics` crate's `remove_diacritics`, a
pure fold that strips diacritical marks from letters and leaves every other
character unchanged (the crate is an external dependency, not part of this
repository).  The table below covers the accented Latin letters the claims
exercise; characters outside it are returned as-is. -/
def foldChar (c : Char) : Char :=
  if c = 'á' || c = 'à' || c = 'â' || c = 'ä' || c = 'ã' then 'a'
  else if c = 'é' || c = 'è' || c = 'ê' || c = 'ë' then 'e'
  else if c = 'í' || c = 'ì' || c = 'î' || c = 'ï' then 'i'
  else if c = 'ó' || c = 'ò' || c = 'ô' || c = 'ö' || c = 'õ' then 'o'
  else if c = 'ú' || c = 'ù' || c = 'û' || c = 'ü' then 'u'
  else if c = 'ñ' then 'n'
  else if c = 'ç' then 'c'
  else if c = 'Á' || c = 'À' || c = 'Â' || c = 'Ä' then 'A'
  else if c = 'É' || c = 'È' || c = 'Ê' || c = 'Ë' then 'E'
  else c

/-- `remove_diacritics` applied to a whole string (character-wise). -/
def removeDiacritics (s : String) : String :=
  String.mk (s.data.map foldChar)

/-- Lexicographic strict comparison of character lists; models Rust's
byte-wise `str` ordering (UTF-8 byte order equals code point order). -/
def charsLt : List Char → List Char → Bool
  | [], [] => false
  | [], _ :: _ => true
  | _ :: _, [] => false
  | a :: as, b :: bs =>
    decide (a.toNat < b.toNat) || (a.toNat == b.toNat && charsLt as bs)

/-- Model of Rust's derived `PartialOrd`/`Ord` `<` on `Option<String>`:
`None` is least, `Some` values compare lexicographically. -/
def optStrLt : Option String → Option String → Bool
  | none, none => false
  | none, some _ => true
  | some _, none => false
  | some a, some b => charsLt a.data b.data

/-! ## Card records (src/collection.rs) -/

/-- `CollectionCard` (src/collection.rs): the canonical name/quantity record
used by both the inventory and the decklist.  `quantity` is a Rust `u64`,
modelled as `Nat`. -/
structure CollectionCard where
  name : String
  quantity : Nat
  deriving DecidableEq, Repr

/-! ## Decklist parser (src/collection.rs, `read_decklist`) -/

/-- Rust `words[1..].join(" ")`. -/
def joinSpaces : List String → String
  | [] => ""
  | [w] => w
  | w :: ws => w ++ " " ++ joinSpaces ws

/-- The per-line loop of `read_decklist`: skip a case-folded `"sideboard"`
line, skip lines with fewer than two whitespace tokens, parse the first
token as `u64` (any failure aborts the whole file, modelled by `none`), and
join the remaining tokens with single spaces to form the name. -/
def readDecklistLines : List String → Option (List CollectionCard)
  | [] => some []
  | line :: rest =>
    if lowerString line == "sideboard" then readDecklistLines rest
    else
      let words := splitWhitespace line
      if words.length < 2 then readDecklistLines rest
      else
        match parseU64 (words.headD "") with
        | none => none
        | some str_num =>
          (readDecklistLines rest).map
            (fun cards => { name := joinSpaces words.tail, quantity := str_num } :: cards)

/-- `read_decklist` (src/collection.rs:83-106), modelled on the file's text
content: split on `'\n'` and run the per-line loop.  `none` models the
`Err` return on an integer-parse failure. -/
def read_decklist (file_str : String) : Option (List CollectionCard) :=
  readDecklistLines ((splitOnChar '\n' file_str.data).map String.mk)

/-! ## Difference engine (src/collection.rs, `find_missing_cards`) -/

/-- The leading face of a dual-face name: the part before `//`, trimmed
(Rust `name.split("//").collect::<Vec<&str>>()[0].trim()`). -/
def halfBeforeDslash (s : String) : String :=
  trimS (String.mk ((splitOnDslash s.data).headD []))

/-- One iteration of the inner loop of `find_missing_cards`: does inventory
entry `itemName` match decklist name `cardName`?  The three sequential
checks of the source (diacritic-folded equality; the inventory name is
dual-faced and its leading face folds equal; the decklist name is dual-faced
and its leading face folds equal) all set `found` and break, so the
iteration is their disjunction. -/
def cardMatch (itemName cardName : String) : Bool :=
  (removeDiacritics itemName == removeDiacritics cardName)
  || (containsDslash itemName
        && removeDiacritics (halfBeforeDslash itemName) == removeDiacritics cardName)
  || (containsDslash cardName
        && removeDiacritics (halfBeforeDslash cardName) == removeDiacritics itemName)

/-- The inner loop of `find_missing_cards`: first inventory entry matching
the decklist name (`break` on the first hit). -/
def findFirstMatch (collection : List CollectionCard) (cardName : String) :
    Option CollectionCard :=
  collection.find? (fun item => cardMatch item.name cardName)

/-- The outer loop of `find_missing_cards`: for each decklist card, find the
first matching inventory entry; if matched with a strictly smaller
inventory quantity, emit the card with the difference; if unmatched, emit
the card verbatim.  (`u64` subtraction is exact here because it is guarded
by `item.quantity < card.quantity`.) -/
def missingList (collection : List CollectionCard) : List CollectionCard → List CollectionCard
  | [] => []
  | card :: rest =>
    match findFirstMatch collection card.name with
    | some item =>
      if item.quantity < card.quantity then
        { name := card.name, quantity := card.quantity - item.quantity }
          :: missingList collection rest
      else
        missingList collection rest
    | none => card :: missingList collection rest

/-- `find_missing_cards` (src/collection.rs:110-162): `None` when nothing is
missing, `Some` of the ordered missing sequence otherwise. -/
def find_missing_cards (collection decklist : List CollectionCard) :
    Option (List CollectionCard) :=
  let missing_cards := missingList collection decklist
  if missing_cards.isEmpty then none else some missing_cards

/-! ## Catalog records (src/database/scryfall.rs)

`ScryfallCard` in the source carries ~50 further passthrough fields
(identifiers, URIs, set data, ...) that no engine function reads; the
embedding keeps the fields the claims' functions use: `name`, `layout`,
`legalities` and `prices`.
-/

/-- `Legality` (src/database/scryfall.rs:600-609). -/
inductive Legality where
  | Legal
  | NotLegal
  | Restricted
  | Banned
  deriving DecidableEq, Repr

/-- `CardLayouts` (src/database/scryfall.rs:184-233). -/
inductive CardLayouts where
  | Normal
  | ArtSeries
  | Token
  | Class
  | Planar
  | Saga
  | Scheme
  | DoubleFacedToken
  | Meld
  | Prototype
  | Vanguard
  | Transform
  | Emblem
  | ModalDualFaceCard
  | Split
  | Adventure
  | Augment
  | Flip
  | Host
  | Mutate
  | Leveler
  | Case
  | Reversible
  | Battle
  deriving DecidableEq, Repr

/-- The formats for which the `Legalities` struct
(src/database/scryfall.rs:613-635) carries a field — one constructor per
field of the source struct, in source order.  Note the struct has no
`explorer` field (settled under claim C7). -/
inductive Format where
  | standard
  | future
  | historic
  | timeless
  | gladiator
  | pioneer
  | modern
  | legacy
  | pauper
  | vintage
  | penny
  | commander
  | oathbreaker
  | standardbrawl
  | brawl
  | alchemy
  | paupercommander
  | duel
  | oldschool
  | premodern
  | predh
  deriving DecidableEq, Repr

/-- `Legalities` (src/database/scryfall.rs:613-635): one `Legality` per
format field of the source struct. -/
structure Legalities where
  standard : Legality
  future : Legality
  historic : Legality
  timeless : Legality
  gladiator : Legality
  pioneer : Legality
  modern : Legality
  legacy : Legality
  pauper : Legality
  vintage : Legality
  penny : Legality
  commander : Legality
  oathbreaker : Legality
  standardbrawl : Legality
  brawl : Legality
  alchemy : Legality
  paupercommander : Legality
  duel : Legality
  oldschool : Legality
  premodern : Legality
  predh : Legality
  deriving DecidableEq, Repr

/-- Field access `legalities.<format>` as a function of the format. -/
def Legalities.get (l : Legalities) : Format → Legality
  | .standard => l.standard
  | .future => l.future
  | .historic => l.historic
  | .timeless => l.timeless
  | .gladiator => l.gladiator
  | .pioneer => l.pioneer
  | .modern => l.modern
  | .legacy => l.legacy
  | .pauper => l.pauper
  | .vintage => l.vintage
  | .penny => l.penny
  | .commander => l.commander
  | .oathbreaker => l.oathbreaker
  | .standardbrawl => l.standardbrawl
  | .brawl => l.brawl
  | .alchemy => l.alchemy
  | .paupercommander => l.paupercommander
  | .duel => l.duel
  | .oldschool => l.oldschool
  | .premodern => l.premodern
  | .predh => l.predh

/-- `impl Default for Legalities` (src/database/scryfall.rs:637-663): every
format `NotLegal`. -/
def defaultLegalities : Legalities :=
  { standard := .NotLegal, future := .NotLegal, historic := .NotLegal
    timeless := .NotLegal, gladiator := .NotLegal, pioneer := .NotLegal
    modern := .NotLegal, legacy := .NotLegal, pauper := .NotLegal
    vintage := .NotLegal, penny := .NotLegal, commander := .NotLegal
    oathbreaker := .NotLegal, standardbrawl := .NotLegal, brawl := .NotLegal
    alchemy := .NotLegal, paupercommander := .NotLegal, duel := .NotLegal
    oldschool := .NotLegal, premodern := .NotLegal, predh := .NotLegal }

/-- `ScryfallPrices` (src/database/scryfall.rs:778-785): optional decimal
strings, stored exactly as received. -/
structure ScryfallPrices where
  usd : Option String
  usd_foil : Option String
  usd_etched : Option String
  eur : Option String
  eur_foil : Option String
  tix : Option String
  deriving DecidableEq, Repr

/-- `PriceType` (src/database/scryfall.rs:789-793). -/
inductive PriceType where
  | USD
  | Euro
  | Tix
  deriving DecidableEq, Repr

/-- `ScryfallCard` (src/database/scryfall.rs:9-86), restricted to the fields
the engine functions read. -/
structure ScryfallCard where
  name : String
  layout : CardLayouts
  legalities : Legalities
  prices : ScryfallPrices
  deriving DecidableEq, Repr

/-! ## Catalog index builder (src/database/scryfall.rs, `read_scryfall_database`) -/

/-- One step of the index-building loop of `read_scryfall_database`
(src/database/scryfall.rs:827-837): Rust
`map.entry(card.name).and_modify(|existing| if card.prices.usd <
existing.prices.usd { *existing = card }).or_insert(card)`.  The `HashMap`
is modelled as an association list keyed by name (key order is irrelevant
to lookups); `<` is Rust's derived `Option<String>` comparison. -/
def upsertCard : List (String × ScryfallCard) → ScryfallCard → List (String × ScryfallCard)
  | [], card => [(card.name, card)]
  | (k, existing) :: rest, card =>
    if k == card.name then
      (k, if optStrLt card.prices.usd existing.prices.usd then card else existing) :: rest
    else
      (k, existing) :: upsertCard rest card

/-- `read_scryfall_database` (src/database/scryfall.rs:820-839), from the
already-decoded card sequence to the name-keyed index. -/
def read_scryfall_database (card_vec : List ScryfallCard) : List (String × ScryfallCard) :=
  card_vec.foldl upsertCard []

/-! ## Catalog lookup and legality aggregator
(src/database/scryfall.rs `match_card`, src/collection.rs `check_legality`) -/

/-- The dual-face layout gate of `match_card`
(src/database/scryfall.rs:847-850). -/
def isDualLayout (l : CardLayouts) : Bool :=
  l == .Transform || l == .Flip || l == .Split || l == .ModalDualFaceCard

/-- `match_card` (src/database/scryfall.rs:843-859): first catalog entry
whose folded name equals the folded query, or — when the entry's layout is
dual-faced — contains it. -/
def match_card (cardname : String) (database : List ScryfallCard) : Option ScryfallCard :=
  database.find? (fun card =>
    removeDiacritics cardname == removeDiacritics card.name
      || (strContains (removeDiacritics card.name) (removeDiacritics cardname)
            && isDualLayout card.layout))

/-- `convert_legal` (src/collection.rs:254-260): `Legal` and `Restricted`
are `true`, everything else `false`. -/
def convert_legal : Legality → Bool
  | .Legal => true
  | .Restricted => true
  | _ => false

/-- One decklist card's update in `check_legality` (src/collection.rs:267-335):
if the card resolves, every still-`true` format flag is overwritten with
`convert_legal` of the card's legality in that format; flags already `false`
are not re-read.  An unresolved card changes nothing. -/
def legalStep (database : List ScryfallCard) (legal : Format → Bool) (card : CollectionCard) :
    Format → Bool :=
  match match_card card.name database with
  | none => legal
  | some matched => fun f => if legal f then convert_legal (matched.legalities.get f) else legal f

/-- `check_legality` (src/collection.rs:263-338) as the result per format:
start from all-`true` and fold the per-card update over the decklist.
(The source collects the flags in the 22-field `FormatLegal` struct; its
extra `explorer` field is settled under claim C7.) -/
def check_legality (decklist : List CollectionCard) (database : List ScryfallCard) :
    Format → Bool :=
  decklist.foldl (legalStep database) (fun _ => true)

/-! ## Format field inventories (for claim C7)

The two structs transcribed field-by-field, in source order.
-/

/-- `FormatLegal` (src/collection.rs:198-221): the 22 boolean format flags
of the legality result vector. -/
structure FormatLegal where
  standard : Bool
  future : Bool
  historic : Bool
  timeless : Bool
  gladiator : Bool
  pioneer : Bool
  explorer : Bool
  modern : Bool
  legacy : Bool
  pauper : Bool
  vintage : Bool
  penny : Bool
  commander : Bool
  oathbreaker : Bool
  standardbrawl : Bool
  brawl : Bool
  alchemy : Bool
  paupercommander : Bool
  duel : Bool
  oldschool : Bool
  premodern : Bool
  predh : Bool
  deriving DecidableEq, Repr

/-- The field names of `Legalities` (src/database/scryfall.rs:613-635), in
declaration order. -/
def legalitiesFieldNames : List String :=
  ["standard", "future", "historic", "timeless", "gladiator", "pioneer",
   "modern", "legacy", "pauper", "vintage", "penny", "commander",
   "oathbreaker", "standardbrawl", "brawl", "alchemy", "paupercommander",
   "duel", "oldschool", "premodern", "predh"]

/-- The field names of `FormatLegal` (src/collection.rs:198-221), in
declaration order. -/
def formatLegalFieldNames : List String :=
  ["standard", "future", "historic", "timeless", "gladiator", "pioneer",
   "explorer", "modern", "legacy", "pauper", "vintage", "penny", "commander",
   "oathbreaker", "standardbrawl", "brawl", "alchemy", "paupercommander",
   "duel", "oldschool", "premodern", "predh"]

/-! ## Prices as exact decimals (model of the `f64` price values) -/

/-- An exact scaled decimal `num / 10 ^ scale`: the model of the `f64`
values the pricing aggregator works with.  Every such value is parsed from
a short decimal price string, and the aggregator only compares values and
multiplies one by an integer quantity, so the exact-decimal model agrees
with `f64` on the engine's arithmetic. -/
structure Dec where
  num : Int
  scale : Nat
  deriving DecidableEq, Repr

/-- The `f64` literal `0.0`. -/
def Dec.zero : Dec := ⟨0, 0⟩

/-- Value comparison `a < b` (cross-multiplied). -/
def Dec.lt (a b : Dec) : Bool :=
  decide (a.num * 10 ^ b.scale < b.num * 10 ^ a.scale)

/-- Value comparison with the `f64` literal `0.0` (`price == 0.0`). -/
def Dec.isZero (a : Dec) : Bool :=
  a.num == 0

/-- Value comparison `a > 0.0` (`price_float > 0.0`). -/
def Dec.gtZero (a : Dec) : Bool :=
  decide (0 < a.num)

/-- `price * quantity as f64`. -/
def Dec.mulNat (a : Dec) (q : Nat) : Dec :=
  ⟨a.num * q, a.scale⟩

/-- Model of Rust `str::parse::<f64>()` on plain decimal strings (an
optional sign, digits, an optional point and fraction digits); forms the
engine never receives (exponents, `inf`, `NaN`) are rejected.  The parse is
exact: the decimal value itself is returned. -/
def parseDecimal (s : String) : Option Dec :=
  let (sign, cs) : Int × List Char := match s.data with
    | '-' :: rest => (-1, rest)
    | '+' :: rest => (1, rest)
    | cs => (1, cs)
  match splitOnChar '.' cs with
  | [ip] =>
    if ip ≠ [] && ip.all isDigitChar then
      some ⟨sign * digitsVal ip, 0⟩
    else none
  | [ip, fp] =>
    if (ip ≠ [] || fp ≠ []) && ip.all isDigitChar && fp.all isDigitChar then
      some ⟨sign * (digitsVal ip * 10 ^ fp.length + digitsVal fp), fp.length⟩
    else none
  | _ => none

/-! ## Pricing aggregator (src/database/scryfall.rs, `get_min_price` /
`min_price_fmt`) -/

/-- The currency-selected price string
(`match currency { USD => usd, Euro => eur, Tix => tix }`). -/
def priceField (prices : ScryfallPrices) : PriceType → Option String
  | .USD => prices.usd
  | .Euro => prices.eur
  | .Tix => prices.tix

/-- `get_min_price` (src/database/scryfall.rs:886-903): fold over the
matched entries; a present price string is parsed with `unwrap_or(0.0)`;
the running minimum starts at `0.0` and is replaced by any positive price
when it is still `0.0`, and afterwards by any strictly smaller positive
price. -/
def get_min_price (cards : List ScryfallCard) (currency : PriceType) : Dec :=
  cards.foldl
    (fun price card =>
      match priceField card.prices currency with
      | none => price
      | some price_str =>
        let price_float := (parseDecimal price_str).getD Dec.zero
        if price.isZero && price_float.gtZero then price_float
        else if price_float.gtZero && Dec.lt price_float price then price_float
        else price)
    Dec.zero

/-- Left-pad a digit string with zeros to length `k`. -/
def padZeros (k : Nat) (s : String) : String :=
  if s.length < k then String.mk (List.replicate (k - s.length) '0') ++ s else s

/-- Drop trailing `'0'` characters. -/
def stripTrailingZeros (s : String) : String :=
  String.mk (s.data.reverse.dropWhile (fun c => c = '0')).reverse

/-- Rust `{}` (`Display`) of an `f64`, on the exact-decimal model: the
shortest decimal — integer part, then the fractional digits with trailing
zeros stripped, with no point when the value is integral.  (Rust prints the
shortest string that round-trips; for the short decimals the engine
handles, that is exactly this string.) -/
def Dec.displayShortest (a : Dec) : String :=
  let sign := if a.num < 0 then "-" else ""
  let n := a.num.natAbs
  let ip := n / 10 ^ a.scale
  let frDigits := stripTrailingZeros (padZeros a.scale (toString (n % 10 ^ a.scale)))
  sign ++ toString ip ++ (if frDigits = "" then "" else "." ++ frDigits)

/-- Rust `{:.2}` of an `f64`, on the exact-decimal model: the value scaled
to hundredths (exact whenever `scale ≤ 2`, which covers every value the
engine formats; otherwise rounded half-up), printed with exactly two
digits after the point. -/
def Dec.displayFixed2 (a : Dec) : String :=
  let sign := if a.num < 0 then "-" else ""
  let n := a.num.natAbs
  let c := (2 * n * 100 + 10 ^ a.scale) / (2 * 10 ^ a.scale)
  sign ++ toString (c / 100) ++ "." ++ padZeros 2 (toString (c % 100))

/-- Rust `{:2}` — minimum field width 2, space-filled (NOT a precision):
pad the displayed value on the left to at least two characters. -/
def padWidth2 (s : String) : String :=
  if s.length < 2 then String.mk (List.replicate (2 - s.length) ' ') ++ s else s

/-- `min_price_fmt` (src/database/scryfall.rs:905-918): the missing-card
price line.  The format string in the source is
`"[{:2}] x{} = {}{:.2}"` — the unit price is rendered with width 2 and no
precision, the line total with precision 2. -/
def min_price_fmt (price : Dec) (quantity : Nat) (currency : PriceType) : String :=
  let currency_str := match currency with
    | .USD => "$"
    | .Euro => "€"
    | .Tix => "Tix "
  "[" ++ padWidth2 price.displayShortest ++ "] x" ++ toString quantity
    ++ " = " ++ currency_str ++ (price.mulNat quantity).displayFixed2

/-! ## Catalog locate, prune and age check (src/startup.rs) -/

/-- The timestamp extraction both `find_scryfall_database`
(src/startup.rs:207-212) and `database_management` (src/startup.rs:406-411)
perform on a matching filename: `sections = fname.split("-")`, then index
`sections[2]` — a panic (modelled `none`) when there are fewer than three
dash-separated segments — then split the third segment on `'.'`, trim, and
parse as `u64` with parse failures becoming `0`. -/
def extractDate (fname : String) : Option Nat :=
  let sections := splitOnChar '-' fname.data
  match sections.get? 2 with
  | none => none
  | some third =>
    let subsections := splitOnChar '.' third
    some ((parseU64 (String.mk (trimChars (subsections.headD [])))).getD 0)

/-- The per-file loop shared by `find_scryfall_database` and
`database_management`: extract each matching filename's timestamp in order;
a panic in any iteration (modelled `none`) aborts the whole loop. -/
def extractDates : List String → Option (List Nat)
  | [] => some []
  | f :: rest =>
    match extractDate f with
    | none => none
    | some d => (extractDates rest).map (d :: ·)

/-- Rust `Iterator::max_by_key` over `(index, value)` pairs: the maximum by
value, the last one on ties. -/
def maxByValLast (l : List (String × Nat)) : Option (String × Nat) :=
  l.foldl
    (fun acc p => match acc with
      | none => some p
      | some q => if q.2 ≤ p.2 then some p else some q)
    none

/-- Rust `Iterator::min_by_key` over `(index, value)` pairs: the minimum by
value, the first one on ties. -/
def minByValFirst (l : List (String × Nat)) : Option (String × Nat) :=
  l.foldl
    (fun acc p => match acc with
      | none => some p
      | some q => if p.2 < q.2 then some p else some q)
    none

/-- `find_scryfall_database` (src/startup.rs:196-221), on the list of
directory entries' filenames: keep the names containing `"oracle-cards"`,
extract each one's timestamp, and pick the maximum.  The outer `none`
models the `sections[2]` index panic; `some none` is the source's `None`
(no matching file). -/
def find_scryfall_database (files : List String) : Option (Option (String × Nat)) :=
  let options := files.filter (fun f => strContains f "oracle-cards")
  match extractDates options with
  | none => none
  | some dates => some (maxByValLast (options.zip dates))

/-- `database_management` (src/startup.rs:392-426), on the list of
directory entries' filenames: keep the names containing `"oracle-cards"`,
and when there are more than `max_num` of them, delete the one with the
smallest timestamp.  The outer `none` models the `sections[2]` index panic;
the inner option is the deleted filename, `none` when nothing is deleted. -/
def database_management (files : List String) (max_num : Nat) : Option (Option String) :=
  let names := files.filter (fun f => strContains f "oracle-cards")
  match extractDates names with
  | none => none
  | some dates =>
    some (if names.length > max_num then (minByValFirst (names.zip dates)).map Prod.fst
          else none)

/-- The fields of `DatabaseCheck` (src/startup.rs:108-116) that
`database_check` computes (statuses and the card payload aside). -/
structure DatabaseCheckResult where
  database_exists : Bool
  need_dl : Bool
  ready_load : Bool
  filename : String
  deriving DecidableEq, Repr

/-- `formatted_time.parse::<u64>().unwrap_or(0)` (src/startup.rs:144): the
now-timestamp, `0` when the parse fails. -/
def nowTimestamp (parsed : Option Nat) : Nat :=
  parsed.getD 0

/-- `database_check` (src/startup.rs:134-174), on the locate result and the
current `YYYYMMDDHHMMSS` timestamp.  The age subtraction `time_num - date`
is performed (here on `Int`, exactly) only under the short-circuit guard
`date < time_num`; otherwise the file is reported ready to load. -/
def database_check (found : Option (String × Nat)) (time_num : Nat) (max_age : Nat) :
    DatabaseCheckResult :=
  match found with
  | some (fname, date) =>
    if date < time_num
        && decide ((time_num : Int) - (date : Int) > (max_age : Int) * 1000000) then
      { database_exists := true, need_dl := true, ready_load := false, filename := fname }
    else
      { database_exists := true, need_dl := false, ready_load := true, filename := fname }
  | none =>
    { database_exists := false, need_dl := true, ready_load := false, filename := "" }

/-! ## Orchestrator: the missing-computation spawn gate (src/app.rs) -/

/-- The slice of `App` state that gates the missing-cards computation
(src/app.rs:407-481): the loaded inventory, the loaded decklist, the loaded
catalog, and the in-flight flag. -/
structure AppMissingState where
  collection : Option (List CollectionCard)
  decklist : Option (List CollectionCard)
  database_cards : Option (List ScryfallCard)
  waiting_for_missing : Bool
  deriving Repr

/-- The spawn condition of the missing-cards thread (src/app.rs:415-418 and
452-455): `collection.is_some() && decklist.is_some() &&
dc.database_cards.is_some() && !waiting_for_missing`. -/
def missingSpawnGate (s : AppMissingState) : Bool :=
  s.collection.isSome && s.decklist.isSome && s.database_cards.isSome
    && !s.waiting_for_missing

/-- The collection-message handler (src/app.rs:407-446), restricted to the
gate-relevant state: store the delivered collection, then spawn the
missing-cards thread iff the gate holds (returned boolean), setting
`waiting_for_missing` when it does. -/
def receiveCollectionMessage (s : AppMissingState) (msg : Option (List CollectionCard)) :
    AppMissingState × Bool :=
  let s' := { s with collection := msg }
  if missingSpawnGate s' then ({ s' with waiting_for_missing := true }, true)
  else (s', false)

/-- The decklist-message handler (src/app.rs:447-481), restricted to the
gate-relevant state: store the delivered decklist, then spawn the
missing-cards thread iff the gate holds (returned boolean), setting
`waiting_for_missing` when it does. -/
def receiveDecklistMessage (s : AppMissingState) (msg : Option (List CollectionCard)) :
    AppMissingState × Bool :=
  let s' := { s with decklist := msg }
  if missingSpawnGate s' then ({ s' with waiting_for_missing := true }, true)
  else (s', false)

/-! ## Lemmas about the difference engine -/

/-- The missing output, defaulted to the empty list, is exactly the list the
outer loop builds. -/
theorem find_missing_cards_getD (collection decklist : List CollectionCard) :
    (find_missing_cards collection decklist).getD [] = missingList collection decklist := by
  unfold find_missing_cards
  cases h : (missingList collection decklist).isEmpty with
  | true => simp [h, List.isEmpty_iff.mp h]
  | false => simp [h]

/-- A name always matches itself (the folded-equality check). -/
theorem cardMatch_self (n : String) : cardMatch n n = true := by
  simp [cardMatch]

/-- The pairwise no-cross-match condition on an inventory: no entry's name
matches a different entry's name under the folding and face rules. -/
def NoCrossMatch (I : List CollectionCard) : Prop :=
  I.Pairwise (fun a b => cardMatch a.name b.name = false ∧ cardMatch b.name a.name = false)

instance (I : List CollectionCard) : Decidable (NoCrossMatch I) := by
  unfold NoCrossMatch
  infer_instance

/-- Under `NoCrossMatch`, the first inventory entry matching a member's name
is that member itself. -/
theorem findFirstMatch_self (I : List CollectionCard) :
    NoCrossMatch I → ∀ d ∈ I, findFirstMatch I d.name = some d := by
  induction I with
  | nil =>
    intro _ d hd
    cases hd
  | cons x xs ih =>
    intro h d hd
    rw [NoCrossMatch, List.pairwise_cons] at h
    rcases List.mem_cons.mp hd with rfl | hmem
    · show List.find? _ _ = some d
      simp [List.find?, cardMatch_self]
    · have hx : cardMatch x.name d.name = false := (h.1 d hmem).1
      show List.find? _ _ = some d
      simp only [List.find?, hx]
      exact ih h.2 d hmem

/-- If every decklist card has a first inventory match with enough copies,
the outer loop emits nothing. -/
theorem missingList_eq_nil (collection : List CollectionCard) :
    ∀ D : List CollectionCard,
      (∀ d ∈ D, ∃ inv, findFirstMatch collection d.name = some inv
          ∧ ¬ inv.quantity < d.quantity) →
      missingList collection D = [] := by
  intro D
  induction D with
  | nil =>
    intro _
    rfl
  | cons card rest ih =>
    intro h
    obtain ⟨inv, hfm, hq⟩ := h card (List.mem_cons_self _ _)
    simp only [missingList, hfm, if_neg hq]
    exact ih (fun d hd => h d (List.mem_cons_of_mem _ hd))

/-! ## Claim C1 -/

/-- C1: for every inventory and decklist, each entry `m` of the output of
`find_missing_cards` satisfies: either no inventory entry matches `m.name`
(under diacritic folding and the `//` face rules) and `m` is a decklist
entry emitted verbatim, or the first matching inventory entry `inv` and the
originating decklist entry `d` (of the same name) satisfy
`inv.quantity < d.quantity` and `inv.quantity + m.quantity = d.quantity` —
a matched card is emitted only when the inventory quantity is strictly
below the decklist quantity, with quantity equal to the difference. -/
theorem c1_find_missing_cards_entries
    (collection decklist : List CollectionCard) (m : CollectionCard)
    (hm : m ∈ (find_missing_cards collection decklist).getD []) :
    (findFirstMatch collection m.name = none ∧ m ∈ decklist)
    ∨ ∃ inv d, findFirstMatch collection m.name = some inv ∧ d ∈ decklist
        ∧ d.name = m.name ∧ inv.quantity < d.quantity
        ∧ inv.quantity + m.quantity = d.quantity := by
  rw [find_missing_cards_getD] at hm
  induction decklist with
  | nil => cases hm
  | cons card rest ih =>
    cases hfm : findFirstMatch collection card.name with
    | none =>
      simp only [missingList, hfm] at hm
      rcases List.mem_cons.mp hm with rfl | hmem
      · exact Or.inl ⟨hfm, List.mem_cons_self _ _⟩
      · rcases ih hmem with ⟨h1, h2⟩ | ⟨inv, d, h1, h2, h3, h4, h5⟩
        · exact Or.inl ⟨h1, List.mem_cons_of_mem _ h2⟩
        · exact Or.inr ⟨inv, d, h1, List.mem_cons_of_mem _ h2, h3, h4, h5⟩
    | some item =>
      simp only [missingList, hfm] at hm
      by_cases hq : item.quantity < card.quantity
      · rw [if_pos hq] at hm
        rcases List.mem_cons.mp hm with rfl | hmem
        · exact Or.inr ⟨item, card, hfm, List.mem_cons_self _ _, rfl, hq,
            Nat.add_sub_cancel' (Nat.le_of_lt hq)⟩
        · rcases ih hmem with ⟨h1, h2⟩ | ⟨inv, d, h1, h2, h3, h4, h5⟩
          · exact Or.inl ⟨h1, List.mem_cons_of_mem _ h2⟩
          · exact Or.inr ⟨inv, d, h1, List.mem_cons_of_mem _ h2, h3, h4, h5⟩
      · rw [if_neg hq] at hm
        rcases ih hm with ⟨h1, h2⟩ | ⟨inv, d, h1, h2, h3, h4, h5⟩
        · exact Or.inl ⟨h1, List.mem_cons_of_mem _ h2⟩
        · exact Or.inr ⟨inv, d, h1, List.mem_cons_of_mem _ h2, h3, h4, h5⟩

/-- Witness for C1: inventory `[Island × 4]`, decklist `[Island × 6]`; the
output entry `Island × 2` instantiates the theorem. -/
theorem c1_witness :
    (findFirstMatch [⟨"Island", 4⟩] (⟨"Island", 2⟩ : CollectionCard).name = none
        ∧ (⟨"Island", 2⟩ : CollectionCard) ∈ [(⟨"Island", 6⟩ : CollectionCard)])
    ∨ ∃ inv d,
        findFirstMatch [⟨"Island", 4⟩] (⟨"Island", 2⟩ : CollectionCard).name = some inv
        ∧ d ∈ [(⟨"Island", 6⟩ : CollectionCard)]
        ∧ d.name = (⟨"Island", 2⟩ : CollectionCard).name
        ∧ inv.quantity < d.quantity
        ∧ inv.quantity + (⟨"Island", 2⟩ : CollectionCard).quantity = d.quantity :=
  c1_find_missing_cards_entries [⟨"Island", 4⟩] [⟨"Island", 6⟩] ⟨"Island", 2⟩ (by decide)

/-! ## Claim C3 -/

/-- C3 counterexample: for the inventory
`I = [Fire // Ice × 1, Fire × 2]`, `find_missing_cards I I` is not empty:
the decklist entry `Fire` first matches the inventory entry `Fire // Ice`
(whose leading face folds equal) with only one copy, so `Fire × 1` is
reported missing even though the decklist equals the inventory. -/
theorem c3_counterexample :
    find_missing_cards [⟨"Fire // Ice", 1⟩, ⟨"Fire", 2⟩] [⟨"Fire // Ice", 1⟩, ⟨"Fire", 2⟩]
      = some [⟨"Fire", 1⟩] := by decide

/-- C3 (amended): for every inventory `I` in which no entry's name matches a
different entry's name under the folding and face rules,
`find_missing_cards I I` reports nothing missing. -/
theorem c3_find_missing_cards_self (I : List CollectionCard) (h : NoCrossMatch I) :
    find_missing_cards I I = none := by
  have hnil : missingList I I = [] :=
    missingList_eq_nil I I
      (fun d hd => ⟨d, findFirstMatch_self I h d hd, Nat.lt_irrefl _⟩)
  unfold find_missing_cards
  simp [hnil]

/-- Witness for C3 at a concrete inventory with no cross-face matches. -/
theorem c3_witness :
    find_missing_cards [⟨"Island", 4⟩, ⟨"Opt", 2⟩] [⟨"Island", 4⟩, ⟨"Opt", 2⟩] = none :=
  c3_find_missing_cards_self [⟨"Island", 4⟩, ⟨"Opt", 2⟩] (by decide)

/-! ## Lemmas about the legality aggregator -/

/-- Pointwise reading of one `check_legality` update: the new flag is the
old flag AND-ed with the resolved card's converted legality (unresolved
cards change nothing). -/
theorem legalStep_apply (database : List ScryfallCard) (legal : Format → Bool)
    (card : CollectionCard) (f : Format) :
    legalStep database legal card f
      = (legal f && match match_card card.name database with
          | none => true
          | some matched => convert_legal (matched.legalities.get f)) := by
  unfold legalStep
  cases match_card card.name database with
  | none => simp
  | some matched => cases hl : legal f <;> simp [hl]

/-- The legality fold is an AND-reduction over the decklist. -/
theorem check_legality_foldl (database : List ScryfallCard) (deck : List CollectionCard) :
    ∀ (init : Format → Bool) (f : Format),
      (deck.foldl (legalStep database) init) f
        = (init f && deck.all (fun card =>
            match match_card card.name database with
            | none => true
            | some matched => convert_legal (matched.legalities.get f))) := by
  induction deck with
  | nil =>
    intro init f
    simp
  | cons c rest ih =>
    intro init f
    rw [List.foldl_cons, ih, List.all_cons, legalStep_apply, Bool.and_assoc]

/-! ## Claim C4 -/

/-- C4: `check_legality` starts with every format `true`; a format's final
flag is the AND over the decklist of `convert_legal` of each resolved
card's legality in that format (so it ends `true` iff every resolved card
is `Legal` or `Restricted` there); a card that does not resolve changes no
flag; and adding cards can only turn `true` flags `false`. -/
theorem c4_check_legality_spec (deck deck2 : List CollectionCard)
    (database : List ScryfallCard) (c : CollectionCard) (f : Format) :
    check_legality [] database f = true
    ∧ check_legality deck database f
        = deck.all (fun card =>
            match match_card card.name database with
            | none => true
            | some matched => convert_legal (matched.legalities.get f))
    ∧ (match_card c.name database = none →
        check_legality (deck ++ [c]) database f = check_legality deck database f)
    ∧ (check_legality (deck ++ deck2) database f = true →
        check_legality deck database f = true) := by
  have key : ∀ D : List CollectionCard,
      check_legality D database f = D.all (fun card =>
        match match_card card.name database with
        | none => true
        | some matched => convert_legal (matched.legalities.get f)) := by
    intro D
    unfold check_legality
    rw [check_legality_foldl]
    simp
  refine ⟨by rw [key]; rfl, key deck, fun hnone => ?_, fun happ => ?_⟩
  · rw [key, key, List.all_append]
    simp [hnone]
  · rw [key] at happ ⊢
    rw [List.all_append, Bool.and_eq_true] at happ
    exact happ.1

/-- The catalog entry for the C4 witness: Black Lotus, `Restricted` in
vintage, `Banned` in legacy, `NotLegal` elsewhere. -/
def lotusCard : ScryfallCard :=
  { name := "Black Lotus", layout := .Normal
    legalities := { defaultLegalities with vintage := .Restricted, legacy := .Banned }
    prices := ⟨none, none, none, none, none, none⟩ }

/-- Witness for C4: deck `[Black Lotus]`, catalog `[lotusCard]`, format
vintage; appending the unresolvable `Opt` changes nothing, and the vintage
flag is `true`. -/
theorem c4_witness :
    check_legality ([⟨"Black Lotus", 1⟩] ++ [⟨"Opt", 1⟩]) [lotusCard] Format.vintage
        = check_legality [⟨"Black Lotus", 1⟩] [lotusCard] Format.vintage
    ∧ check_legality [⟨"Black Lotus", 1⟩] [lotusCard] Format.vintage = true :=
  ⟨(c4_check_legality_spec [⟨"Black Lotus", 1⟩] [⟨"Black Lotus", 1⟩] [lotusCard]
        ⟨"Opt", 1⟩ Format.vintage).2.2.1 (by decide),
   (c4_check_legality_spec [⟨"Black Lotus", 1⟩] [⟨"Black Lotus", 1⟩] [lotusCard]
        ⟨"Opt", 1⟩ Format.vintage).2.2.2 (by decide)⟩

/-! ## Order lemmas for the price comparison -/

theorem charsLt_irrefl (cs : List Char) : charsLt cs cs = false := by
  induction cs with
  | nil => rfl
  | cons a as ih => simp [charsLt, ih, Nat.lt_irrefl]

theorem charsLt_trans : ∀ as bs cs : List Char,
    charsLt as bs = true → charsLt bs cs = true → charsLt as cs = true := by
  intro as
  induction as with
  | nil =>
    intro bs cs h1 h2
    cases bs with
    | nil => simp [charsLt] at h1
    | cons b bs' =>
      cases cs with
      | nil => simp [charsLt] at h2
      | cons c cs' => rfl
  | cons a as' ih =>
    intro bs cs h1 h2
    cases bs with
    | nil => simp [charsLt] at h1
    | cons b bs' =>
      cases cs with
      | nil => simp [charsLt] at h2
      | cons c cs' =>
        simp only [charsLt, Bool.or_eq_true, Bool.and_eq_true, decide_eq_true_eq,
          beq_iff_eq] at h1 h2 ⊢
        rcases h1 with h1 | ⟨hab, h1⟩
        · rcases h2 with h2 | ⟨hbc, h2⟩
          · exact Or.inl (Nat.lt_trans h1 h2)
          · exact Or.inl (hbc ▸ h1)
        · rcases h2 with h2 | ⟨hbc, h2⟩
          · exact Or.inl (by rw [hab]; exact h2)
          · exact Or.inr ⟨hab.trans hbc, ih bs' cs' h1 h2⟩

theorem optStrLt_irrefl (a : Option String) : optStrLt a a = false := by
  cases a with
  | none => rfl
  | some s => simp [optStrLt, charsLt_irrefl]

theorem optStrLt_trans (a b c : Option String)
    (h1 : optStrLt a b = true) (h2 : optStrLt b c = true) : optStrLt a c = true := by
  cases a with
  | none =>
    cases c with
    | none =>
      cases b with
      | none => exact h2
      | some sb => simp [optStrLt] at h2
    | some sc => rfl
  | some sa =>
    cases b with
    | none => simp [optStrLt] at h1
    | some sb =>
      cases c with
      | none => simp [optStrLt] at h2
      | some sc => exact charsLt_trans _ _ _ h1 h2

/-! ## Lemmas about the catalog index builder -/

theorem lookup_upsert_self (acc : List (String × ScryfallCard)) (card : ScryfallCard) :
    (upsertCard acc card).lookup card.name
      = some (match acc.lookup card.name with
          | none => card
          | some v => if optStrLt card.prices.usd v.prices.usd then card else v) := by
  induction acc with
  | nil => simp [upsertCard, List.lookup]
  | cons kv rest ih =>
    obtain ⟨k, v⟩ := kv
    by_cases hk : k = card.name
    · subst hk
      simp [upsertCard, List.lookup]
    · have hbk : (k == card.name) = false := by simp [beq_iff_eq, hk]
      have hbk2 : (card.name == k) = false := by simp [beq_iff_eq, Ne.symm hk]
      simp only [upsertCard, hbk, Bool.false_eq_true, if_false, List.lookup, hbk2, ih]

theorem lookup_upsert_other (acc : List (String × ScryfallCard)) (card : ScryfallCard)
    (name : String) (hne : name ≠ card.name) :
    (upsertCard acc card).lookup name = acc.lookup name := by
  have hbn : (name == card.name) = false := by simp [beq_iff_eq, hne]
  induction acc with
  | nil => simp only [upsertCard, List.lookup, hbn]
  | cons kv rest ih =>
    obtain ⟨k, v⟩ := kv
    by_cases hk : k = card.name
    · subst hk
      have hbk : (card.name == card.name) = true := by simp
      simp only [upsertCard, hbk, if_true, List.lookup, hbn]
    · have hbk : (k == card.name) = false := by simp [beq_iff_eq, hk]
      by_cases hnk : name = k
      · subst hnk
        have hbk2 : (name == name) = true := by simp
        simp only [upsertCard, hbk, Bool.false_eq_true, if_false, List.lookup, hbk2]
      · have hbk2 : (name == k) = false := by simp [beq_iff_eq, hnk]
        simp only [upsertCard, hbk, Bool.false_eq_true, if_false, List.lookup, hbk2, ih]

theorem lookup_upsert_self_none {acc : List (String × ScryfallCard)} {card : ScryfallCard}
    (h : acc.lookup card.name = none) :
    (upsertCard acc card).lookup card.name = some card := by
  rw [lookup_upsert_self, h]

theorem lookup_upsert_self_some {acc : List (String × ScryfallCard)} {card v0 : ScryfallCard}
    (h : acc.lookup card.name = some v0) :
    (upsertCard acc card).lookup card.name
      = some (if optStrLt card.prices.usd v0.prices.usd then card else v0) := by
  rw [lookup_upsert_self, h]

theorem keys_upsert (acc : List (String × ScryfallCard)) (card : ScryfallCard) :
    (upsertCard acc card).map Prod.fst
      = if card.name ∈ acc.map Prod.fst then acc.map Prod.fst
        else acc.map Prod.fst ++ [card.name] := by
  induction acc with
  | nil => simp [upsertCard]
  | cons kv rest ih =>
    obtain ⟨k, v⟩ := kv
    by_cases hk : k = card.name
    · subst hk
      simp [upsertCard]
    · simp only [upsertCard, beq_iff_eq, hk, if_false, List.map_cons, ih, List.mem_cons]
      by_cases hmem : card.name ∈ rest.map Prod.fst
      · simp [hmem, Ne.symm hk]
      · simp [hmem, Ne.symm hk]

theorem lookup_isSome_iff_keys (l : List (String × ScryfallCard)) (name : String) :
    (l.lookup name).isSome = true ↔ name ∈ l.map Prod.fst := by
  induction l with
  | nil => simp [List.lookup]
  | cons kv rest ih =>
    obtain ⟨k, v⟩ := kv
    by_cases hk : name = k
    · subst hk
      simp [List.lookup]
    · have hbk : (name == k) = false := by simp [beq_iff_eq, hk]
      simp only [List.lookup, hbk, List.map_cons, List.mem_cons]
      rw [ih]
      constructor
      · intro hm
        exact Or.inr hm
      · rintro (hm | hm)
        · exact absurd hm hk
        · exact hm

/-- The invariant the index-building fold maintains: keys are distinct; a
looked-up entry is one of the processed cards, carries the looked-up name,
and no processed card of that name has a strictly smaller `usd` field
(under the `Option<String>` order); and a name is present iff some
processed card bears it. -/
def IndexInv (acc : List (String × ScryfallCard)) (seen : List ScryfallCard) : Prop :=
  (acc.map Prod.fst).Nodup
  ∧ (∀ name v, acc.lookup name = some v →
      v ∈ seen ∧ v.name = name
        ∧ ∀ c ∈ seen, c.name = name → optStrLt c.prices.usd v.prices.usd = false)
  ∧ (∀ name, (acc.lookup name).isSome = true ↔ name ∈ seen.map ScryfallCard.name)

theorem indexInv_upsert {acc : List (String × ScryfallCard)} {seen : List ScryfallCard}
    {card : ScryfallCard} (h : IndexInv acc seen) :
    IndexInv (upsertCard acc card) (seen ++ [card]) := by
  obtain ⟨hnd, hmin, hdom⟩ := h
  refine ⟨?_, ?_, ?_⟩
  · rw [keys_upsert]
    by_cases hmem : card.name ∈ acc.map Prod.fst
    · simpa [hmem] using hnd
    · simp [hmem, List.nodup_append, hnd]
  · intro name v hv
    by_cases hname : name = card.name
    · subst hname
      cases hacc : acc.lookup card.name with
      | none =>
        rw [lookup_upsert_self_none hacc] at hv
        injection hv with hv
        subst hv
        refine ⟨List.mem_append_right _ (List.mem_singleton_self _), rfl, ?_⟩
        intro c hc hcname
        rcases List.mem_append.mp hc with hc | hc
        · exfalso
          have hmem : card.name ∈ seen.map ScryfallCard.name :=
            List.mem_map.mpr ⟨c, hc, hcname⟩
          have hsome := (hdom card.name).mpr hmem
          rw [hacc] at hsome
          exact Bool.false_ne_true hsome
        · have hcc : c = card := List.mem_singleton.mp hc
          subst hcc
          exact optStrLt_irrefl _
      | some v0 =>
        obtain ⟨hv0seen, hv0name, hv0min⟩ := hmin card.name v0 hacc
        rw [lookup_upsert_self_some hacc] at hv
        injection hv with hv
        subst hv
        by_cases hlt : optStrLt card.prices.usd v0.prices.usd = true
        · rw [if_pos hlt]
          refine ⟨List.mem_append_right _ (List.mem_singleton_self _), rfl, ?_⟩
          intro c hc hcname
          rcases List.mem_append.mp hc with hc | hc
          · by_contra hcl
            rw [Bool.not_eq_false] at hcl
            have htr := optStrLt_trans _ _ _ hcl hlt
            exact absurd (hv0min c hc hcname) (by simp [htr])
          · have hcc : c = card := List.mem_singleton.mp hc
            subst hcc
            exact optStrLt_irrefl _
        · rw [if_neg hlt]
          refine ⟨List.mem_append_left _ hv0seen, hv0name, ?_⟩
          intro c hc hcname
          rcases List.mem_append.mp hc with hc | hc
          · exact hv0min c hc hcname
          · have hcc : c = card := List.mem_singleton.mp hc
            subst hcc
            exact Bool.eq_false_iff.mpr hlt
    · rw [lookup_upsert_other _ _ _ hname] at hv
      obtain ⟨hseen, hvname, hmin'⟩ := hmin name v hv
      refine ⟨List.mem_append_left _ hseen, hvname, ?_⟩
      intro c hc hcname
      rcases List.mem_append.mp hc with hc | hc
      · exact hmin' c hc hcname
      · exfalso
        have hcc : c = card := List.mem_singleton.mp hc
        subst hcc
        exact hname hcname.symm
  · intro name
    by_cases hname : name = card.name
    · subst hname
      constructor
      · intro _
        exact List.mem_map.mpr ⟨card, List.mem_append_right _ (List.mem_singleton_self _), rfl⟩
      · intro _
        cases hacc : acc.lookup card.name with
        | none => rw [lookup_upsert_self_none hacc]; rfl
        | some v0 => rw [lookup_upsert_self_some hacc]; rfl
    · rw [lookup_upsert_other _ _ _ hname, hdom name, List.map_append]
      constructor
      · intro hm
        exact List.mem_append_left _ hm
      · intro hm
        rcases List.mem_append.mp hm with hm | hm
        · exact hm
        · exfalso
          simp at hm
          exact hname hm

theorem indexInv_foldl : ∀ (cards : List ScryfallCard) (acc : List (String × ScryfallCard))
    (seen : List ScryfallCard), IndexInv acc seen →
    IndexInv (cards.foldl upsertCard acc) (seen ++ cards) := by
  intro cards
  induction cards with
  | nil =>
    intro acc seen h
    simpa using h
  | cons c rest ih =>
    intro acc seen h
    have hstep := ih (upsertCard acc c) (seen ++ [c]) (indexInv_upsert h)
    simpa [List.append_assoc] using hstep

/-! ## Claim C2 -/

/-- A priced printing of "A" (usd `1.00`). -/
def cardPriced : ScryfallCard :=
  { name := "A", layout := .Normal, legalities := defaultLegalities
    prices := ⟨some "1.00", none, none, none, none, none⟩ }

/-- An unpriced printing of "A" (usd absent). -/
def cardUnpriced : ScryfallCard :=
  { name := "A", layout := .Normal, legalities := defaultLegalities
    prices := ⟨none, none, none, none, none, none⟩ }

/-- C2 counterexample: feeding a priced printing of "A" and then an
unpriced one, the retained index entry for "A" is the UNPRICED printing —
Rust's derived `Option<String>` order has `None < Some _`, so an entry with
no price displaces an entry that has one, contradicting the claim. -/
theorem c2_counterexample :
    (read_scryfall_database [cardPriced, cardUnpriced]).lookup "A" = some cardUnpriced
    ∧ cardPriced.prices.usd = some "1.00"
    ∧ cardUnpriced.prices.usd = none := by
  refine ⟨by decide, rfl, rfl⟩

/-- C2 (amended): the index built by `read_scryfall_database` retains
exactly one entry per name (distinct keys; a name is present iff some input
card bears it), and the retained entry is an input card of that name that
is minimal with respect to Rust's derived `Option<String>` order on the
`usd` price string — `None` least, strings compared lexicographically —
regardless of the configured currency. -/
theorem c2_read_scryfall_database_min (cards : List ScryfallCard) :
    ((read_scryfall_database cards).map Prod.fst).Nodup
    ∧ (∀ name, ((read_scryfall_database cards).lookup name).isSome = true
        ↔ name ∈ cards.map ScryfallCard.name)
    ∧ ∀ name v, (read_scryfall_database cards).lookup name = some v →
        v ∈ cards ∧ v.name = name
          ∧ ∀ c ∈ cards, c.name = name → optStrLt c.prices.usd v.prices.usd = false := by
  have base : IndexInv [] [] := by
    refine ⟨List.nodup_nil, ?_, ?_⟩
    · intro name v hv
      simp [List.lookup] at hv
    · intro name
      simp [List.lookup]
  have h := indexInv_foldl cards [] [] base
  rw [List.nil_append] at h
  obtain ⟨h1, h2, h3⟩ := h
  exact ⟨h1, h3, h2⟩

/-- Witness for C2: the index of `[cardPriced, cardUnpriced]` looked up at
"A" instantiates the minimality statement. -/
theorem c2_witness :
    cardUnpriced ∈ [cardPriced, cardUnpriced] ∧ cardUnpriced.name = "A"
    ∧ ∀ c ∈ [cardPriced, cardUnpriced], c.name = "A" →
        optStrLt c.prices.usd cardUnpriced.prices.usd = false :=
  (c2_read_scryfall_database_min [cardPriced, cardUnpriced]).2.2 "A" cardUnpriced (by decide)

/-! ## Claim C5 -/

/-- The boolean returned by the collection-message handler is exactly the
spawn gate evaluated on the updated state. -/
theorem receiveCollection_snd (s : AppMissingState) (msg : Option (List CollectionCard)) :
    (receiveCollectionMessage s msg).2
      = (msg.isSome && s.decklist.isSome && s.database_cards.isSome
          && !s.waiting_for_missing) := by
  unfold receiveCollectionMessage
  by_cases hg : missingSpawnGate { s with collection := msg } = true
  · rw [if_pos hg]
    exact hg.symm
  · rw [if_neg hg]
    exact (Bool.eq_false_iff.mpr hg).symm

/-- The boolean returned by the decklist-message handler is exactly the
spawn gate evaluated on the updated state. -/
theorem receiveDecklist_snd (s : AppMissingState) (msg : Option (List CollectionCard)) :
    (receiveDecklistMessage s msg).2
      = (s.collection.isSome && msg.isSome && s.database_cards.isSome
          && !s.waiting_for_missing) := by
  unfold receiveDecklistMessage
  by_cases hg : missingSpawnGate { s with decklist := msg } = true
  · rw [if_pos hg]
    exact hg.symm
  · rw [if_neg hg]
    exact (Bool.eq_false_iff.mpr hg).symm

/-- C5 counterexample: with the inventory loaded, the decklist delivered,
no catalog (`database_cards = None`, the catalog stage failed or is
absent), and nothing in flight, the decklist-message handler does NOT spawn
the missing-cards computation — the spawn gate requires
`dc.database_cards.is_some()`. -/
theorem c5_counterexample :
    (receiveDecklistMessage
        { collection := some [⟨"Opt", 4⟩], decklist := none, database_cards := none,
          waiting_for_missing := false }
        (some [⟨"Opt", 4⟩])).2 = false := by decide

/-- C5 (amended): the missing-cards computation is spawned, on either
message handler, exactly when the inventory, the decklist AND the catalog
index are all present and no computation is in flight; in particular, when
the catalog stage failed or is absent (`database_cards = None`), it is
never spawned. -/
theorem c5_missing_spawn_gate (s : AppMissingState)
    (msgC msgD : Option (List CollectionCard)) :
    ((receiveCollectionMessage s msgC).2
        = (msgC.isSome && s.decklist.isSome && s.database_cards.isSome
            && !s.waiting_for_missing))
    ∧ ((receiveDecklistMessage s msgD).2
        = (s.collection.isSome && msgD.isSome && s.database_cards.isSome
            && !s.waiting_for_missing))
    ∧ (s.database_cards = none →
        (receiveCollectionMessage s msgC).2 = false
        ∧ (receiveDecklistMessage s msgD).2 = false) := by
  refine ⟨receiveCollection_snd s msgC, receiveDecklist_snd s msgD, fun hdb => ⟨?_, ?_⟩⟩
  · rw [receiveCollection_snd, hdb]
    simp
  · rw [receiveDecklist_snd, hdb]
    simp

/-- Witness for C5 at a concrete state with no catalog. -/
theorem c5_witness :
    (receiveCollectionMessage
        { collection := none, decklist := some [⟨"Island", 1⟩], database_cards := none,
          waiting_for_missing := false }
        (some [⟨"Island", 1⟩])).2 = false
    ∧ (receiveDecklistMessage
        { collection := none, decklist := some [⟨"Island", 1⟩], database_cards := none,
          waiting_for_missing := false }
        (some [⟨"Island", 1⟩])).2 = false :=
  (c5_missing_spawn_gate
    { collection := none, decklist := some [⟨"Island", 1⟩], database_cards := none,
      waiting_for_missing := false }
    (some [⟨"Island", 1⟩]) (some [⟨"Island", 1⟩])).2.2 rfl

/-! ## Claim C6 -/

/-- A printing of "Sol Ring" with the given usd price string (the other
fields are irrelevant to pricing). -/
def mkSolRing (p : Option String) : ScryfallCard :=
  { name := "Sol Ring", layout := .Normal, legalities := defaultLegalities
    prices := ⟨p, none, none, none, none, none⟩ }

/-- C6 (evaluation at the failing input): three "Sol Ring" printings priced
usd `1.50`, `0.80` and absent, currency USD, missing quantity 2.  The
aggregator does select the minimum positive price (0.80), but
`min_price_fmt` renders the line as `"[0.8] x2 = $1.60"` — the source's
format string is `"[{:2}] x{} = {}{:.2}"`, whose `{:2}` is a minimum
field width of 2, not the two-digit precision `{:.2}` the claim states —
so the unit price is NOT printed with two digits after the decimal
point. -/
theorem c6_min_price_fmt_eval :
    get_min_price [mkSolRing (some "1.50"), mkSolRing (some "0.80"), mkSolRing none]
        PriceType.USD = ⟨80, 2⟩
    ∧ min_price_fmt
        (get_min_price [mkSolRing (some "1.50"), mkSolRing (some "0.80"), mkSolRing none]
          PriceType.USD) 2 PriceType.USD
        = "[0.8] x2 = $1.60"
    ∧ "[0.8] x2 = $1.60" ≠ "[0.80] x2 = $1.60" := by
  refine ⟨by decide, by decide, by decide⟩

/-! ## Claim C7 -/

/-- C7: the per-card `Legalities` struct carries 21 formats and does NOT
include `explorer`, while the `FormatLegal` result struct carries 22
including `explorer` — the two differ exactly by the `explorer` field, so
the aggregator cannot read `entry.legalities[explorer]`
(`check_legality`'s access `matched.legalities.explorer`,
src/collection.rs:288, has no corresponding field). -/
theorem c7_legalities_fields :
    legalitiesFieldNames.length = 21
    ∧ "explorer" ∉ legalitiesFieldNames
    ∧ formatLegalFieldNames.length = 22
    ∧ "explorer" ∈ formatLegalFieldNames
    ∧ formatLegalFieldNames.filter (fun n => !(n == "explorer")) = legalitiesFieldNames := by
  refine ⟨rfl, by decide, rfl, by decide, by decide⟩

/-! ## Claim C8 -/

/-- Structure of the entries the per-line loop returns: each comes verbatim
from a non-skipped line, with the quantity the `u64` parse of the line's
first token and the name the space-join of the rest. -/
theorem readDecklistLines_entry : ∀ (lines : List String) (cards : List CollectionCard),
    readDecklistLines lines = some cards → ∀ entry ∈ cards,
      ∃ line ∈ lines,
        lowerString line ≠ "sideboard"
        ∧ 2 ≤ (splitWhitespace line).length
        ∧ parseU64 ((splitWhitespace line).headD "") = some entry.quantity
        ∧ entry.name = joinSpaces (splitWhitespace line).tail := by
  intro lines
  induction lines with
  | nil =>
    intro cards h entry he
    injection h with h
    subst h
    exact absurd he (List.not_mem_nil _)
  | cons line rest ih =>
    intro cards h entry he
    rw [readDecklistLines] at h
    split at h
    next hsb =>
      obtain ⟨l, hl, hprops⟩ := ih cards h entry he
      exact ⟨l, List.mem_cons_of_mem _ hl, hprops⟩
    next hsb =>
      dsimp only at h
      split at h
      next hlen =>
        obtain ⟨l, hl, hprops⟩ := ih cards h entry he
        exact ⟨l, List.mem_cons_of_mem _ hl, hprops⟩
      next hlen =>
        cases hp : parseU64 ((splitWhitespace line).headD "") with
        | none =>
          rw [hp] at h
          exact Option.noConfusion h
        | some str_num =>
          rw [hp] at h
          rw [Option.map_eq_some'] at h
          obtain ⟨cards', hrest, hcards⟩ := h
          subst hcards
          rcases List.mem_cons.mp he with rfl | hmem
          · refine ⟨line, List.mem_cons_self _ _, ?_, Nat.not_lt.mp hlen, hp, rfl⟩
            intro hcontra
            exact hsb (by simp [hcontra])
          · obtain ⟨l, hl, hprops⟩ := ih cards' hrest entry hmem
            exact ⟨l, List.mem_cons_of_mem _ hl, hprops⟩

/-- C8 counterexample: the input file `"0 Island"` is accepted by
`read_decklist` and its returned entry has quantity 0 — the first token
parses as the non-negative integer `0`, and nothing enforces
`quantity ≥ 1`. -/
theorem c8_counterexample : read_decklist "0 Island" = some [⟨"Island", 0⟩] := by decide

/-- C8 (amended): every entry returned by `read_decklist` comes verbatim
from an accepted line: its quantity is the `u64` parse of the line's first
whitespace token — a non-negative integer, so quantity 0 is possible — and
its name is the single-space join of the remaining tokens. -/
theorem c8_read_decklist_quantities (file_str : String) (cards : List CollectionCard)
    (h : read_decklist file_str = some cards) : ∀ entry ∈ cards,
      ∃ line ∈ (splitOnChar '\n' file_str.data).map String.mk,
        lowerString line ≠ "sideboard"
        ∧ 2 ≤ (splitWhitespace line).length
        ∧ parseU64 ((splitWhitespace line).headD "") = some entry.quantity
        ∧ entry.name = joinSpaces (splitWhitespace line).tail :=
  readDecklistLines_entry _ cards h

/-- Witness for C8: the file `"2 Black Lotus"` and its returned entry. -/
theorem c8_witness :
    ∃ line ∈ (splitOnChar '\n' ("2 Black Lotus" : String).data).map String.mk,
      lowerString line ≠ "sideboard"
      ∧ 2 ≤ (splitWhitespace line).length
      ∧ parseU64 ((splitWhitespace line).headD "")
          = some (⟨"Black Lotus", 2⟩ : CollectionCard).quantity
      ∧ (⟨"Black Lotus", 2⟩ : CollectionCard).name = joinSpaces (splitWhitespace line).tail :=
  c8_read_decklist_quantities "2 Black Lotus" [⟨"Black Lotus", 2⟩] (by decide)
    ⟨"Black Lotus", 2⟩ (by decide)

/-! ## Claim C9 -/

/-- With at least three dash-separated segments, the timestamp extraction
cannot hit the `sections[2]` panic. -/
theorem extractDate_isSome (f : String) (h3 : 3 ≤ (splitOnChar '-' f.data).length) :
    (extractDate f).isSome = true := by
  cases hg : (splitOnChar '-' f.data).get? 2 with
  | none =>
    rw [List.get?_eq_none] at hg
    omega
  | some third =>
    simp only [extractDate, hg]
    rfl

/-- If every file's extraction succeeds, the whole loop succeeds. -/
theorem extractDates_isSome : ∀ files : List String,
    (∀ f ∈ files, (extractDate f).isSome = true) → (extractDates files).isSome = true := by
  intro files
  induction files with
  | nil =>
    intro _
    rfl
  | cons f rest ih =>
    intro h
    have hf := h f (List.mem_cons_self _ _)
    cases hef : extractDate f with
    | none =>
      rw [hef] at hf
      exact absurd hf (by simp)
    | some d =>
      have hrest := ih (fun g hg => h g (List.mem_cons_of_mem _ hg))
      cases her : extractDates rest with
      | none =>
        rw [her] at hrest
        exact absurd hrest (by simp)
      | some ds =>
        simp only [extractDates, hef, her, Option.map_some']
        rfl

/-- C9: the locate and prune steps are total only under the precondition
that every filename containing `"oracle-cards"` has at least three
dash-separated segments.  For `"oracle-cards.json"` (two segments), the
`sections[2]` index is out of bounds and both `find_scryfall_database` and
`database_management` panic (modelled `none`); when every matching
filename has at least three segments, both functions return a result. -/
theorem c9_find_scryfall_database_panic (files : List String) (max_num : Nat)
    (hseg : ∀ f ∈ files, strContains f "oracle-cards" = true →
        3 ≤ (splitOnChar '-' f.data).length) :
    find_scryfall_database ["oracle-cards.json"] = none
    ∧ database_management ["oracle-cards.json"] 3 = none
    ∧ (find_scryfall_database files).isSome = true
    ∧ (database_management files max_num).isSome = true := by
  have hall : ∀ f ∈ files.filter (fun f => strContains f "oracle-cards"),
      (extractDate f).isSome = true := by
    intro f hf
    rw [List.mem_filter] at hf
    exact extractDate_isSome f (hseg f hf.1 hf.2)
  have hsome := extractDates_isSome _ hall
  refine ⟨by decide, by decide, ?_, ?_⟩
  · cases hed : extractDates (files.filter (fun f => strContains f "oracle-cards")) with
    | none =>
      rw [hed] at hsome
      exact absurd hsome (by simp)
    | some dates =>
      simp only [find_scryfall_database, hed]
      rfl
  · cases hed : extractDates (files.filter (fun f => strContains f "oracle-cards")) with
    | none =>
      rw [hed] at hsome
      exact absurd hsome (by simp)
    | some dates =>
      simp only [database_management, hed]
      rfl

/-- Witness for C9: a directory with one well-formed catalog filename. -/
theorem c9_witness :
    find_scryfall_database ["oracle-cards.json"] = none
    ∧ database_management ["oracle-cards.json"] 3 = none
    ∧ (find_scryfall_database ["oracle-cards-20240101120000.json"]).isSome = true
    ∧ (database_management ["oracle-cards-20240101120000.json"] 3).isSome = true :=
  c9_find_scryfall_database_panic ["oracle-cards-20240101120000.json"] 3 (by decide)

/-! ## Claim C10 -/

/-- C10: the age check subtracts only under the guard
`date < time_num`, so it never underflows; a file whose embedded timestamp
is at least the current one — including the case where the now-timestamp
fails to parse and becomes 0 — is treated as fresh: reported ready-to-load
and not need-download. -/
theorem c10_database_check_no_underflow (fname : String) (date time_num max_age : Nat)
    (h : time_num ≤ date) :
    (database_check (some (fname, date)) time_num max_age).ready_load = true
    ∧ (database_check (some (fname, date)) time_num max_age).need_dl = false
    ∧ (database_check (some (fname, date)) (nowTimestamp none) max_age).ready_load = true
    ∧ (database_check (some (fname, date)) (nowTimestamp none) max_age).need_dl = false := by
  have hlt : ¬ date < time_num := Nat.not_lt.mpr h
  have h0 : ¬ date < nowTimestamp none := by simp [nowTimestamp]
  refine ⟨?_, ?_, ?_, ?_⟩ <;> simp [database_check, hlt, h0]

/-- Witness for C10: a file stamped exactly at the current timestamp. -/
theorem c10_witness :
    (database_check (some ("oracle-cards-20240101120000.json", 20240101120000))
        20240101120000 7).ready_load = true
    ∧ (database_check (some ("oracle-cards-20240101120000.json", 20240101120000))
        20240101120000 7).need_dl = false :=
  ⟨(c10_database_check_no_underflow "oracle-cards-20240101120000.json"
      20240101120000 20240101120000 7 (by decide)).1,
   (c10_database_check_no_underflow "oracle-cards-20240101120000.json"
      20240101120000 20240101120000 7 (by decide)).2.1⟩

end Decklist
